import Mathlib

/-!
# Scribble: a filesystem-backed JSON store

Shallow embedding of `scribble.go` (package `scribble`) and of `pkg/errors`.

* Path strings are Go strings; `Clean` and `Join` model `path/filepath` on a
  Unix system at the level of path components.
* The operating system is a deterministic model of a directory tree: a finite
  table from resolved locations to nodes (a regular file with its content, a
  directory, or a socket, which stands for the nodes that are neither).  System
  calls fail only for structural reasons (missing parent, a file where a
  directory is needed, and so on); symbolic links and permissions are not
  modelled.  An error of a system call is its path and its error number; the
  name of the operation (`open`, `read`, `mkdir`, ...) is not modelled.
* `encoding/json` is a parameter: a `Codec` gives the encoder and the decoder
  for the values of one type.
* A call of the driver either returns or dies with a Go runtime fatal error
  (`sync: Unlock of unlocked RWMutex`), which is the `Outcome.fatal` case.
* Drivers come from `New` only: the fields of `Driver` are unexported, and
  nothing but `getOrCreateLock` writes the lock registry.
-/

namespace Scribble

/-! ## Path strings (`path/filepath`, Unix) -/

/-- Components of a path string: `strings.Split(s, "/")` on the characters. -/
def splitSlash : List Char → List (List Char)
  | [] => [[]]
  | c :: cs =>
    if c = '/' then [] :: splitSlash cs
    else
      match splitSlash cs with
      | [] => [[c]]
      | h :: t => (c :: h) :: t

/-- One step of the lexical cleaning of `filepath.Clean`; `out` is the stack of
components kept so far, the last component first. -/
def cleanStep (rooted : Bool) (out : List (List Char)) (c : List Char) : List (List Char) :=
  if c = [] ∨ c = ['.'] then out
  else if c = ['.', '.'] then
    match out with
    | [] => if rooted then [] else [c]
    | top :: rest => if top = ['.', '.'] then c :: out else rest
  else c :: out

/-- A lexically cleaned path: whether it starts at `/`, and its components, the
last one first. -/
structure Path where
  rooted : Bool
  rcomps : List (List Char)
  deriving DecidableEq, Repr

/-- The cleaned form of a path string. -/
def cleanPath (s : List Char) : Path :=
  let rooted : Bool := s.head? = some '/'
  ⟨rooted, (splitSlash s).foldl (cleanStep rooted) []⟩

/-- Components joined by `/`. -/
def joinSlash : List (List Char) → List Char
  | [] => []
  | [c] => c
  | c :: cs => c ++ '/' :: joinSlash cs

/-- The text of a cleaned path. -/
def render (p : Path) : List Char :=
  if p.rooted then '/' :: joinSlash p.rcomps.reverse
  else if p.rcomps = [] then ['.']
  else joinSlash p.rcomps.reverse

/-- Model of `filepath.Clean`. -/
def Clean (s : String) : String := ⟨render (cleanPath s.data)⟩

/-- Model of `filepath.Join`: leading empty elements are skipped, the rest is
joined by `/` and cleaned; the result is empty when every element is empty. -/
def Join (elems : List String) : String :=
  match elems.dropWhile (fun e => e = "") with
  | [] => ""
  | es => Clean ⟨joinSlash (es.map String.data)⟩

/-! ## The operating system: a directory tree -/

/-- Content of a file: its bytes. -/
abbrev Bytes := List Nat

/-- Error numbers of the system calls; `ENXIO_` is the error number `ENXIO`
(no such device or address). -/
inductive Errno
  | ENOENT | ENOTDIR | EISDIR | EINVAL | ENOTEMPTY | EBUSY | EEXIST | ENXIO_
  deriving DecidableEq, Repr

/-- A node of the tree: a regular file with its content, a directory, or a
socket, a node that is neither a directory nor a regular file and cannot be
opened. -/
inductive Node
  | file (content : Bytes)
  | dir
  | socket
  deriving DecidableEq, Repr

/-- The file information `os.Stat` gives: the two mode tests the driver uses. -/
def Node.IsDir : Node → Bool
  | .dir => true
  | _ => false

/-- Mode test `IsRegular` of a file information. -/
def Node.IsRegular : Node → Bool
  | .file _ => true
  | _ => false

/-- The filesystem: a table from locations to nodes.  The first entry of a
location is the one in force. -/
abbrev FS := List (Path × Node)

/-- Locations that always exist as directories: `/`, the working directory and
the directories above it (`..`, `../..`, ...). -/
def isAnchor (p : Path) : Bool := p.rcomps.all (fun c => c = ['.', '.'])

/-- Entry of a location in the table. -/
def FS.get : FS → Path → Option Node
  | [], _ => none
  | (q, n) :: t, p => if q = p then some n else FS.get t p

/-- The table with the entry of `p` set to `n`. -/
def FS.set (fs : FS) (p : Path) (n : Node) : FS :=
  (p, n) :: fs.filter (fun e => e.1 ≠ p)

/-- Whether location `q` is `p` or lies below `p`. -/
def isUnder (p q : Path) : Bool :=
  q.rooted = p.rooted ∧ p.rcomps.isSuffixOf q.rcomps

/-- The table without `p` and everything below it. -/
def FS.removeTree (fs : FS) (p : Path) : FS :=
  fs.filter (fun e => ¬ isUnder p e.1)

/-- Path walk of the kernel: every directory on the way must exist and be a
directory; the result is the node at the end. -/
def walk (fs : FS) (rooted : Bool) : List (List Char) → Except Errno Node
  | [] => .ok .dir
  | c :: rest =>
    if isAnchor ⟨rooted, c :: rest⟩ then .ok .dir
    else
      match walk fs rooted rest with
      | .error e => .error e
      | .ok .dir =>
        match FS.get fs ⟨rooted, c :: rest⟩ with
        | some n => .ok n
        | none => .error .ENOENT
      | .ok _ => .error .ENOTDIR

/-- Location a path string names; the empty string names nothing. -/
def resolve (s : String) : Option Path :=
  if s = "" then none else some (cleanPath s.data)

namespace os

/-- Model of `os.Stat`. -/
def Stat (fs : FS) (name : String) : Except Errno Node :=
  match resolve name with
  | none => .error .ENOENT
  | some p => walk fs p.rooted p.rcomps

/-- Model of `os.IsNotExist` on the error of a system call. -/
def IsNotExist : Except Errno Node → Bool
  | .error .ENOENT => true
  | _ => false

/-- Creation of a directory and of the missing directories above it.  The
error names the location on the way that exists and is no directory. -/
def mkdirAllAt (fs : FS) (rooted : Bool) : List (List Char) → Except (Path × Errno) FS
  | [] => .ok fs
  | c :: rest =>
    if isAnchor ⟨rooted, c :: rest⟩ then .ok fs
    else
      match mkdirAllAt fs rooted rest with
      | .error e => .error e
      | .ok fs1 =>
        match FS.get fs1 ⟨rooted, c :: rest⟩ with
        | some .dir => .ok fs1
        | some _ => .error (⟨rooted, c :: rest⟩, .ENOTDIR)
        | none => .ok (FS.set fs1 ⟨rooted, c :: rest⟩ .dir)

/-- Model of `os.MkdirAll` on a cleaned path.  The error carries the path of
the `*PathError`: the directory on the way that could not be made. -/
def MkdirAll (fs : FS) (path : String) : Except (String × Errno) FS :=
  match resolve path with
  | none => .error (path, .ENOENT)
  | some p =>
    match mkdirAllAt fs p.rooted p.rcomps with
    | .ok fs1 => .ok fs1
    | .error (q, e) => .error (⟨render q⟩, e)

/-- Model of `os.ReadFile`. -/
def ReadFile (fs : FS) (name : String) : Except Errno Bytes :=
  match Stat fs name with
  | .error e => .error e
  | .ok .dir => .error .EISDIR
  | .ok .socket => .error .ENXIO_
  | .ok (.file b) => .ok b

/-- Model of `os.WriteFile`: the file is created or truncated and then holds
exactly `data`. -/
def WriteFile (fs : FS) (name : String) (data : Bytes) : Except Errno FS :=
  match resolve name with
  | none => .error .ENOENT
  | some p =>
    if isAnchor p then .error .EISDIR
    else
      match walk fs p.rooted p.rcomps.tail with
      | .error e => .error e
      | .ok .dir =>
        match FS.get fs p with
        | some .dir => .error .EISDIR
        | some .socket => .error .ENXIO_
        | _ => .ok (FS.set fs p (.file data))
      | .ok _ => .error .ENOTDIR

/-- Entries of the table at or below `p`, moved to the same place below `q`. -/
def moveTree (fs : FS) (p q : Path) : FS :=
  fs.map (fun e =>
    if isUnder p e.1 then
      (⟨q.rooted, e.1.rcomps.take (e.1.rcomps.length - p.rcomps.length) ++ q.rcomps⟩, e.2)
    else e)

/-- Model of `os.Rename`.  When the new name is an existing directory the call
fails with `EEXIST` (the check `os.Rename` makes before the system call).
Otherwise a node that is no directory replaces what the new name held in one
step, and a directory moves with what is below it. -/
def Rename (fs : FS) (oldpath newpath : String) : Except Errno FS :=
  match resolve oldpath, resolve newpath with
  | some p, some q =>
    match walk fs p.rooted p.rcomps with
    | .error e => .error e
    | .ok src =>
      match walk fs q.rooted q.rcomps with
      | .ok .dir => .error .EEXIST
      | _ =>
        if isAnchor p then .error .EBUSY
        else
          match walk fs q.rooted q.rcomps.tail with
          | .error e => .error e
          | .ok .dir =>
            match src with
            | .dir =>
              if FS.get fs q ≠ none then .error .ENOTDIR
              else if isUnder p q then .error .EINVAL
              else .ok (moveTree fs p q)
            | n => .ok (FS.set (fs.filter (fun e => e.1 ≠ p)) q n)
          | .ok _ => .error .ENOTDIR
  | _, _ => .error .ENOENT

/-- Names of the entries directly inside the directory at `p`. -/
def childNames (fs : FS) (p : Path) : List (List Char) :=
  ((fs.filter (fun e => e.1.rooted = p.rooted ∧ e.1.rcomps ≠ [] ∧
      e.1.rcomps.tail = p.rcomps ∧ ¬ isAnchor e.1)).map
    (fun e => e.1.rcomps.headD [])).dedup

/-- Model of `os.ReadDir`: the names of the entries of a directory, sorted by
file name. -/
def ReadDir (fs : FS) (name : String) : Except Errno (List String) :=
  match resolve name with
  | none => .error .ENOENT
  | some p =>
    match walk fs p.rooted p.rcomps with
    | .error e => .error e
    | .ok .dir =>
      .ok (((childNames fs p).insertionSort (fun a b => a ≤ b)).map String.mk)
    | .ok _ => .error .ENOTDIR

/-- The test `endsWithDot` of `os.RemoveAll`. -/
def endsWithDot (path : String) : Bool :=
  path = "." ∨ path.data.reverse.take 2 = ['.', '/']

/-- Model of `os.RemoveAll`: removes the path and everything below it; a path
that does not exist is no error.  The result is the error, if any, and the
filesystem after the call. -/
def RemoveAll (fs : FS) (path : String) : Option Errno × FS :=
  match resolve path with
  | none => (none, fs)
  | some p =>
    if endsWithDot path then (some .EINVAL, fs)
    else if isAnchor p then (some .EBUSY, fs.filter (fun e => ¬ (isUnder p e.1 ∧ e.1 ≠ p)))
    else (none, FS.removeTree fs p)

end os

/-! ## Package `errors` -/

/-- Error values of the program.  `PathError` and `LinkError` are the errors of
package `os`, with the path or paths and the error number of the system
call. -/
inductive Err
  | ErrMissingCollection
  | ErrResourceNotFound
  | ErrNotExist
  | PathError (path : String) (errno : Errno)
  | LinkError (oldpath newpath : String) (errno : Errno)
  | EncodingError (msg : String)
  | FileIOError (path : String) (err : Err)
  | NotFoundError (path : String) (err : Err)
  deriving DecidableEq, Repr

namespace errors

/-- Constructor `NewFileIOError`. -/
def NewFileIOError (path : String) (err : Err) : Err := .FileIOError path err

/-- Constructor `NewNotFoundError`. -/
def NewNotFoundError (path : String) (err : Err) : Err := .NotFoundError path err

/-- Method `Path` of the two `ScribblerError` types. -/
def Path : Err → Option String
  | .FileIOError path _ => some path
  | .NotFoundError path _ => some path
  | _ => none

/-- Method `OriginalError` of the two `ScribblerError` types. -/
def OriginalError : Err → Option Err
  | .FileIOError _ err => some err
  | .NotFoundError _ err => some err
  | _ => none

end errors

/-! ## Package `scribble` -/

open errors

/-- The JSON encoder and decoder for the values of a type `V`:
`json.MarshalIndent(v, "", "\t")` and `json.Unmarshal(b, v)`; the second
argument of `Unmarshal` is the target before the call. -/
structure Codec (V : Type) where
  MarshalIndent : V → Except String Bytes
  Unmarshal : Bytes → V → Except String V

/-- The driver: whether `mutex` is held for writing, the names that have a lock
in `resourceLocks`, and the root directory `dir`. -/
structure Driver where
  mutexLocked : Bool
  resourceLocks : List String
  dir : String
  deriving DecidableEq, Repr

/-- How a call ends: it returns, or the Go runtime stops the process with a
fatal error. -/
inductive Outcome (α : Type)
  | fatal
  | ret (a : α)
  deriving DecidableEq, Repr

/-- Function `New`: the driver, the error and the filesystem after the call. -/
def New (fs : FS) (dir : String) : Driver × Option Err × FS :=
  let dir := Clean dir
  let driver : Driver := { mutexLocked := false, resourceLocks := [], dir := dir }
  match os.Stat fs dir with
  | .ok _ => (driver, none, fs)
  | .error _ =>
    match os.MkdirAll fs dir with
    | .ok fs1 => (driver, none, fs1)
    | .error (p, e) => (driver, some (.PathError p e), fs)

/-- Method `getOrCreateLock`: `LoadOrStore` on the registry, and when the lock
was stored just now `d.mutex.Unlock()`, a fatal error of the runtime when the
mutex is not held. -/
def Driver.getOrCreateLock (d : Driver) (collection : String) : Outcome Driver :=
  if collection ∈ d.resourceLocks then .ret d
  else
    let d1 : Driver := { d with resourceLocks := collection :: d.resourceLocks }
    if d1.mutexLocked then .ret { d1 with mutexLocked := false }
    else .fatal

/-- Helper `write`: the error and the filesystem after the call. -/
def write {V : Type} (codec : Codec V) (fs : FS) (dir tmpPath dstPath : String) (v : V) :
    Option Err × FS :=
  match os.MkdirAll fs dir with
  | .error (p, e) => (some (NewFileIOError dir (.PathError p e)), fs)
  | .ok fs1 =>
    match codec.MarshalIndent v with
    | .error msg => (some (.EncodingError msg), fs1)
    | .ok b =>
      let b := b ++ [10]
      match os.WriteFile fs1 tmpPath b with
      | .error e => (some (NewFileIOError dir (.PathError tmpPath e)), fs1)
      | .ok fs2 =>
        match os.Rename fs2 tmpPath dstPath with
        | .error e => (some (.LinkError tmpPath dstPath e), fs2)
        | .ok fs3 => (none, fs3)

/-- Method `Write`. -/
def Driver.Write {V : Type} (codec : Codec V) (d : Driver) (fs : FS)
    (collection resource : String) (v : V) : Outcome (Option Err × Driver × FS) :=
  if collection = "" then .ret (some .ErrMissingCollection, d, fs)
  else if resource = "" then .ret (some .ErrResourceNotFound, d, fs)
  else
    match d.getOrCreateLock collection with
    | .fatal => .fatal
    | .ret d1 =>
      let dir := Join [d.dir, collection]
      let fnlPath := Join [dir, resource ++ ".json"]
      let tmpPath := fnlPath ++ ".tmp"
      let r := write codec fs dir tmpPath fnlPath v
      .ret (r.1, d1, r.2)

/-- Helper `read`: the error and the target after the call. -/
def read {V : Type} (codec : Codec V) (fs : FS) (record : String) (v : V) : Option Err × V :=
  match os.ReadFile fs (record ++ ".json") with
  | .error e =>
    (some (NewFileIOError (record ++ ".json") (.PathError (record ++ ".json") e)), v)
  | .ok b =>
    match codec.Unmarshal b v with
    | .error msg => (some (.EncodingError msg), v)
    | .ok v1 => (none, v1)

/-- Method `Read`. -/
def Driver.Read {V : Type} (codec : Codec V) (d : Driver) (fs : FS)
    (collection resource : String) (v : V) : Option Err × V :=
  if collection = "" then (some .ErrMissingCollection, v)
  else if resource = "" then (some .ErrResourceNotFound, v)
  else
    let record := Join [d.dir, collection, resource]
    read codec fs record v

/-- Helper `readAll`. -/
def readAll (fs : FS) : List String → String → Except Err (List Bytes)
  | [], _ => .ok []
  | file :: files, dir =>
    match os.ReadFile fs (Join [dir, file]) with
    | .error e =>
      .error (NewFileIOError (Join [dir, file]) (.PathError (Join [dir, file]) e))
    | .ok b =>
      match readAll fs files dir with
      | .error err => .error err
      | .ok records => .ok (b :: records)

/-- Method `ReadAll`. -/
def Driver.ReadAll (d : Driver) (fs : FS) (collection : String) : Except Err (List Bytes) :=
  if collection = "" then .error .ErrMissingCollection
  else
    let dir := Join [d.dir, collection]
    match os.ReadDir fs dir with
    | .error e => .error (NewFileIOError dir (.PathError dir e))
    | .ok files => readAll fs files dir

/-- Helper `stat`: the bare path, and when it does not exist the path with
`.json` appended. -/
def stat (fs : FS) (path : String) : Except Errno Node :=
  if os.IsNotExist (os.Stat fs path) then os.Stat fs (path ++ ".json")
  else os.Stat fs path

/-- Method `Delete`. -/
def Driver.Delete (d : Driver) (fs : FS) (collection resource : String) :
    Outcome (Option Err × Driver × FS) :=
  let path := Join [collection, resource]
  match d.getOrCreateLock collection with
  | .fatal => .fatal
  | .ret d1 =>
    let dir := Join [d.dir, path]
    match stat fs dir with
    | .error _ => .ret (some (NewNotFoundError path .ErrNotExist), d1, fs)
    | .ok fi =>
      if fi.IsDir then
        match os.RemoveAll fs dir with
        | (some e, fs1) => .ret (some (NewFileIOError dir (.PathError dir e)), d1, fs1)
        | (none, fs1) => .ret (none, d1, fs1)
      else if fi.IsRegular then
        match os.RemoveAll fs (dir ++ ".json") with
        | (some e, fs1) =>
          .ret (some (NewFileIOError (dir ++ ".json") (.PathError (dir ++ ".json") e)), d1, fs1)
        | (none, fs1) => .ret (none, d1, fs1)
      else .ret (none, d1, fs)

/-! ## Test data of `scribble_test.go` -/

/-- Type `Fish` of the tests: one field `Type`, encoded under the key `type`. -/
structure Fish where
  type : String
  deriving DecidableEq, Repr

/-- Bytes of a text of ASCII characters. -/
def bytesOf (s : String) : Bytes := s.data.map Char.toNat

/-- Encoder and decoder of `Fish` for field values that need no escaping: the
encoding is the tab-indented JSON object, and the decoder reads that object,
followed or not by a newline. -/
def fishCodec : Codec Fish where
  MarshalIndent := fun f => .ok (bytesOf "\x7b\n\t\"type\": \"" ++ bytesOf f.type ++ bytesOf "\"\n\x7d")
  Unmarshal := fun b _ =>
    let pre := bytesOf "\x7b\n\t\"type\": \""
    let post := bytesOf "\"\n\x7d"
    let body := if b.getLast? = some 10 then b.dropLast else b
    if pre.isPrefixOf body ∧ post.isSuffixOf body ∧ pre.length + post.length ≤ body.length then
      .ok ⟨String.mk (((body.drop pre.length).take
        (body.length - pre.length - post.length)).map Char.ofNat)⟩
    else .error "invalid character"

/-- Value `redfish` of the tests. -/
def redfish : Fish := ⟨"red"⟩

/-- Value `bluefish` of the tests. -/
def bluefish : Fish := ⟨"blue"⟩

deriving instance DecidableEq for Except

/-- The filesystem after `New` on the root `./deep/school` of the tests, from
an empty working directory. -/
def schoolFS : FS := (New [] "./deep/school").2.2

/-- The driver `New` returns for the root `./deep/school`. -/
def schoolDriver : Driver := (New [] "./deep/school").1

/-- Encoder for a type JSON cannot encode (a Go channel): every encoding fails. -/
def chanCodec : Codec Unit where
  MarshalIndent := fun _ => .error "json: unsupported type: chan int"
  Unmarshal := fun _ _ => .error "json: cannot unmarshal"

/-- The filesystem a system call left; the given one when the call failed. -/
def orElse {ε : Type} (fs : FS) : Except ε FS → FS
  | .ok fs1 => fs1
  | .error _ => fs

/-- The database of the tests with the empty collection directory
`deep/school/fish`. -/
def emptyFishFS : FS := orElse schoolFS (os.MkdirAll schoolFS "deep/school/fish")

/-- The database of the tests with the collection `fish` holding the resource
file `redfish.json`, the encoding of `redfish` followed by a newline. -/
def resourceFS : FS :=
  orElse emptyFishFS (os.WriteFile emptyFishFS "deep/school/fish/redfish.json"
    (bytesOf "\x7b\n\t\"type\": \"red\"\n\x7d\n"))

theorem get_filter (fs : FS) (f : Path → Bool) (k : Path) :
    FS.get (fs.filter (fun e => f e.1)) k = if f k then FS.get fs k else none := by
  induction fs with
  | nil => simp [FS.get]
  | cons e fs ih =>
    obtain ⟨q, n⟩ := e
    by_cases hq : f q = true
    · simp only [List.filter_cons, hq, if_true, FS.get]
      by_cases hk : q = k
      · subst hk; simp [hq]
      · simp [hk, ih]
    · simp only [List.filter_cons, hq, if_false, FS.get]
      by_cases hk : q = k
      · subst hk; simp [hq, ih]
      · simp [hk, ih]

theorem get_set (fs : FS) (p : Path) (n : Node) (k : Path) :
    FS.get (FS.set fs p n) k = if k = p then some n else FS.get fs k := by
  unfold FS.set
  by_cases hk : k = p
  · subst hk; simp [FS.get]
  · have hpk : ¬ p = k := fun e => hk e.symm
    have := get_filter fs (fun q => decide (q ≠ p)) k
    simp only [FS.get, hpk, if_false, hk]
    rw [this]
    simp [hk]

theorem walk_congr (fs fs2 : FS) (rooted : Bool) (rc : List (List Char))
    (h : ∀ k, k <:+ rc → FS.get fs ⟨rooted, k⟩ = FS.get fs2 ⟨rooted, k⟩) :
    walk fs rooted rc = walk fs2 rooted rc := by
  induction rc with
  | nil => rfl
  | cons c rest ih =>
    have ih2 := ih (fun k hk => h k (hk.trans (List.suffix_cons c rest)))
    simp only [walk, ih2, h (c :: rest) (List.suffix_refl _)]

theorem suffix_ne_cons (c : List Char) (rest k : List (List Char)) (hk : k <:+ rest) :
    k ≠ c :: rest := by
  intro e
  have := hk.length_le
  rw [e] at this
  simp at this

theorem mkdirAllAt_spec (fs : FS) (rooted : Bool) (rc : List (List Char)) :
    ∀ fs1, os.mkdirAllAt fs rooted rc = .ok fs1 →
      walk fs1 rooted rc = .ok .dir ∧
      ∀ k, FS.get fs1 k = FS.get fs k ∨
        (FS.get fs k = none ∧ FS.get fs1 k = some .dir ∧ k.rooted = rooted ∧ k.rcomps <:+ rc) := by
  induction rc with
  | nil =>
    intro fs1 h
    simp only [os.mkdirAllAt, Except.ok.injEq] at h
    subst h
    exact ⟨rfl, fun k => Or.inl rfl⟩
  | cons c rest ih =>
    intro fs1 h
    simp only [os.mkdirAllAt] at h
    by_cases ha : isAnchor ⟨rooted, c :: rest⟩ = true
    · simp only [ha, if_true, Except.ok.injEq] at h
      subst h
      exact ⟨by simp [walk, ha], fun k => Or.inl rfl⟩
    · have ha2 : isAnchor ⟨rooted, c :: rest⟩ = false := by simpa using ha
      simp only [ha2, Bool.false_eq_true, if_false] at h
      cases hrec : os.mkdirAllAt fs rooted rest with
      | error e => simp [hrec] at h
      | ok fs0 =>
        obtain ⟨hw, hg⟩ := ih fs0 hrec
        simp only [hrec] at h
        cases hget : FS.get fs0 ⟨rooted, c :: rest⟩ with
        | none =>
          simp only [hget, Except.ok.injEq] at h
          subst h
          have hwalk : walk (FS.set fs0 ⟨rooted, c :: rest⟩ .dir) rooted rest = .ok .dir := by
            rw [← hw]
            apply walk_congr
            intro k hk
            rw [get_set]
            have : (⟨rooted, k⟩ : Path) ≠ ⟨rooted, c :: rest⟩ := by
              intro e
              exact suffix_ne_cons c rest k hk (Path.mk.inj e).2
            simp [this]
          refine ⟨by simp [walk, ha2, hwalk, get_set], fun k => ?_⟩
          rw [get_set]
          by_cases hk : k = ⟨rooted, c :: rest⟩
          · subst hk
            right
            refine ⟨?_, by simp, rfl, List.suffix_refl _⟩
            rcases hg ⟨rooted, c :: rest⟩ with h1 | h1
            · rw [← h1, hget]
            · exact h1.1
          · simp only [hk, if_false]
            rcases hg k with h1 | ⟨h1, h2, h3, h4⟩
            · exact Or.inl h1
            · exact Or.inr ⟨h1, h2, h3, h4.trans (List.suffix_cons c rest)⟩
        | some n =>
          cases n with
          | file b => simp [hget] at h
          | socket => simp [hget] at h
          | dir =>
            simp only [hget, Except.ok.injEq] at h
            subst h
            refine ⟨by simp [walk, ha2, hw, hget], fun k => ?_⟩
            rcases hg k with h1 | ⟨h1, h2, h3, h4⟩
            · exact Or.inl h1
            · exact Or.inr ⟨h1, h2, h3, h4.trans (List.suffix_cons c rest)⟩


/-! ## Validation of the names -/

/-- C2: `Write` and `Read` with an empty collection return `ErrMissingCollection`
whatever the resource is, with a non-empty collection and an empty resource they
return `ErrResourceNotFound`, and `ReadAll` with an empty collection returns
`ErrMissingCollection`.  `Write` leaves the driver (its lock registry) and the
filesystem as they were; `Read` and `ReadAll` have no effect on either. -/
theorem validation_errors {V : Type} (codec : Codec V) (d : Driver) (fs : FS)
    (collection resource : String) (v : V) (hc : collection ≠ "") :
    d.Write codec fs "" resource v = .ret (some .ErrMissingCollection, d, fs) ∧
    d.Read codec fs "" resource v = (some .ErrMissingCollection, v) ∧
    d.Write codec fs collection "" v = .ret (some .ErrResourceNotFound, d, fs) ∧
    d.Read codec fs collection "" v = (some .ErrResourceNotFound, v) ∧
    d.ReadAll fs "" = .error .ErrMissingCollection := by
  refine ⟨?_, ?_, ?_, ?_, ?_⟩
  · simp [Driver.Write]
  · simp [Driver.Read]
  · simp [Driver.Write, hc]
  · simp [Driver.Read, hc]
  · simp [Driver.ReadAll]

theorem validation_errors_witness :
    "fish" ≠ "" ∧
    (schoolDriver.Write fishCodec schoolFS "" "redfish" redfish
        = .ret (some .ErrMissingCollection, schoolDriver, schoolFS) ∧
      schoolDriver.Read fishCodec schoolFS "" "redfish" redfish
        = (some .ErrMissingCollection, redfish) ∧
      schoolDriver.Write fishCodec schoolFS "fish" "" redfish
        = .ret (some .ErrResourceNotFound, schoolDriver, schoolFS) ∧
      schoolDriver.Read fishCodec schoolFS "fish" "" redfish
        = (some .ErrResourceNotFound, redfish) ∧
      schoolDriver.ReadAll schoolFS "" = .error .ErrMissingCollection) :=
  ⟨by decide, validation_errors fishCodec schoolDriver schoolFS "fish" "redfish" redfish
    (by decide)⟩

/-! ## Delete -/

/-- When the registry already holds the lock of the collection and neither the
bare path nor the path with `.json` exists, `Delete` returns the not-found
error with the joined names as its path and changes nothing. -/
theorem Delete_absent_of_registered (d : Driver) (fs : FS) (collection resource : String)
    (hl : collection ∈ d.resourceLocks)
    (h1 : os.Stat fs (Join [d.dir, Join [collection, resource]]) = .error .ENOENT)
    (h2 : ∃ e, os.Stat fs (Join [d.dir, Join [collection, resource]] ++ ".json") = .error e) :
    d.Delete fs collection resource
      = .ret (some (.NotFoundError (Join [collection, resource]) .ErrNotExist), d, fs) := by
  obtain ⟨e, h2⟩ := h2
  simp [Driver.Delete, Driver.getOrCreateLock, hl, stat, h1, h2, os.IsNotExist,
    NewNotFoundError]

/-- C6, the code at the failing input: on the driver `New` returns for
`./deep/school`, with neither `fish/ghost` nor `fish/ghost.json` in the
filesystem, `Delete("fish", "ghost")` does not return: the first
`getOrCreateLock("fish")` unlocks the driver mutex nobody holds, which is a
fatal error of the runtime. -/
theorem delete_absent_on_new_driver_fatal :
    os.Stat schoolFS "deep/school/fish/ghost" = .error .ENOENT ∧
    os.Stat schoolFS "deep/school/fish/ghost.json" = .error .ENOENT ∧
    schoolDriver.Delete schoolFS "fish" "ghost" = .fatal := by
  decide

/-! ## Opening a database -/

/-- C9: when `New(root)` returns a nil error, a second `New(root)` on the
filesystem the first call left returns the same driver and a nil error and
leaves the filesystem exactly as it is; the same holds on every later
filesystem in which the root still exists, so whatever was written between the
two calls is kept. -/
theorem New_twice (fs : FS) (root : String) (h : (New fs root).2.1 = none) :
    New (New fs root).2.2 root = ((New fs root).1, none, (New fs root).2.2) ∧
    ∀ fs2 : FS, (∃ n, os.Stat fs2 (Clean root) = .ok n) →
      New fs2 root = ((New fs root).1, none, fs2) := by
  have hdrv : ∀ f : FS, (New f root).1 = ⟨false, [], Clean root⟩ := by
    intro f
    simp only [New]
    cases os.Stat f (Clean root) with
    | ok n => rfl
    | error e =>
      cases os.MkdirAll f (Clean root) with
      | ok fs1 => rfl
      | error pe => cases pe; rfl
  have hlater : ∀ fs2 : FS, (∃ n, os.Stat fs2 (Clean root) = .ok n) →
      New fs2 root = ((New fs root).1, none, fs2) := by
    intro fs2 ⟨n, hn⟩
    rw [hdrv fs]
    simp [New, hn]
  refine ⟨?_, hlater⟩
  apply hlater
  simp only [New] at h ⊢
  cases hs : os.Stat fs (Clean root) with
  | ok n => exact ⟨n, by simp [hs]⟩
  | error e =>
    simp only [hs] at h ⊢
    cases hm : os.MkdirAll fs (Clean root) with
    | error e2 =>
      obtain ⟨p, e3⟩ := e2
      simp [hm] at h
    | ok fs1 =>
      refine ⟨.dir, ?_⟩
      simp only [os.MkdirAll] at hm
      simp only [os.Stat]
      cases hr : resolve (Clean root) with
      | none => simp [hr] at hm
      | some p =>
        simp only [hr] at hm
        cases hmk : os.mkdirAllAt fs p.rooted p.rcomps with
        | error pe =>
          obtain ⟨q, e3⟩ := pe
          simp [hmk] at hm
        | ok fs2 =>
          simp only [hmk, Except.ok.injEq] at hm
          subst hm
          exact (mkdirAllAt_spec fs p.rooted p.rcomps fs2 hmk).1

theorem New_twice_witness :
    (New [] "./deep/school").2.1 = none ∧
    (New (New [] "./deep/school").2.2 "./deep/school"
        = ((New [] "./deep/school").1, none, (New [] "./deep/school").2.2) ∧
      ∀ fs2 : FS, (∃ n, os.Stat fs2 (Clean "./deep/school") = .ok n) →
        New fs2 "./deep/school" = ((New [] "./deep/school").1, none, fs2)) :=
  ⟨by decide, New_twice [] "./deep/school" (by decide)⟩

/-! ## The lock registry -/

/-- When `getOrCreateLock` returns, the name has a lock in the registry, every
lock that was in the registry is still there, and the next call for the same
name finds the stored lock and leaves the driver as it is. -/
theorem getOrCreateLock_returns (d d1 : Driver) (name : String)
    (h : d.getOrCreateLock name = .ret d1) :
    name ∈ d1.resourceLocks ∧ (∀ n ∈ d.resourceLocks, n ∈ d1.resourceLocks) ∧
    d1.getOrCreateLock name = .ret d1 := by
  unfold Driver.getOrCreateLock at h
  split at h
  · rename_i hin
    cases h
    exact ⟨hin, fun _ hn => hn, by simp [Driver.getOrCreateLock, hin]⟩
  · simp only at h
    split at h
    · cases h
      exact ⟨by simp, fun n hn => by simp [hn], by simp [Driver.getOrCreateLock]⟩
    · cases h

/-- C11, the code on every driver `New` returns: for every filesystem, root and
collection name, the first call `getOrCreateLock(name)` does not complete.  The
registry is empty and the driver mutex is not held, so the call stores the new
lock and then unlocks the mutex nobody holds, which is a fatal error of the
runtime (`sync: Unlock of unlocked RWMutex`); there is no later call. -/
theorem getOrCreateLock_on_new_driver_fatal (fs : FS) (root name : String) :
    (New fs root).1.mutexLocked = false ∧ (New fs root).1.resourceLocks = [] ∧
    (New fs root).1.getOrCreateLock name = .fatal := by
  have hdrv : (New fs root).1 = ⟨false, [], Clean root⟩ := by
    simp only [New]
    cases os.Stat fs (Clean root) with
    | ok n => rfl
    | error e =>
      cases os.MkdirAll fs (Clean root) with
      | ok fs1 => rfl
      | error pe => cases pe; rfl
  rw [hdrv]
  simp [Driver.getOrCreateLock]

/-! ## Write and Delete on a driver from `New` -/

theorem New_driver (fs : FS) (root : String) : (New fs root).1 = ⟨false, [], Clean root⟩ := by
  simp only [New]
  cases os.Stat fs (Clean root) with
  | ok n => rfl
  | error e =>
    cases os.MkdirAll fs (Clean root) with
    | ok fs1 => rfl
    | error pe => cases pe; rfl

theorem Write_of_new_fatal {V : Type} (codec : Codec V) (fs fs2 : FS)
    (root collection resource : String) (v : V) (hc : collection ≠ "") (hr : resource ≠ "") :
    (New fs root).1.Write codec fs2 collection resource v = .fatal := by
  rw [New_driver]
  simp [Driver.Write, Driver.getOrCreateLock, hc, hr]

theorem Delete_of_new_fatal (fs fs2 : FS) (root collection resource : String) :
    (New fs root).1.Delete fs2 collection resource = .fatal := by
  rw [New_driver]
  simp [Driver.Delete, Driver.getOrCreateLock]

/-- C1, the code at the input the claim names: on the driver `New` returns, for
every root, filesystem and value, `Write("fish", "redfish", v)` does not return
nil: it does not return at all, because the first `getOrCreateLock("fish")` is
a fatal error of the runtime.  Nothing is written, so a `Read` of the resource
on the database of the tests finds no file. -/
theorem write_redfish_on_new_driver_fatal {V : Type} (codec : Codec V) (fs fs2 : FS)
    (root : String) (v : V) :
    (New fs root).1.Write codec fs2 "fish" "redfish" v = .fatal ∧
    schoolDriver.Write fishCodec schoolFS "fish" "redfish" redfish = .fatal ∧
    schoolDriver.Read fishCodec schoolFS "fish" "redfish" ⟨""⟩
      = (some (.FileIOError "deep/school/fish/redfish.json"
          (.PathError "deep/school/fish/redfish.json" .ENOENT)), ⟨""⟩) :=
  ⟨Write_of_new_fatal codec fs fs2 root "fish" "redfish" v (by decide) (by decide),
    by decide, by decide⟩

/-- C5, the code at the input of `TestDeleteall`: the collection directory
`deep/school/fish` exists and holds a resource.  On the driver `New` returns
`Delete("fish", "")` does not return nil: it is fatal, for every root,
filesystem and collection name.  The directory is not removed, and `ReadAll`
of the collection still returns its resource. -/
theorem delete_collection_on_new_driver (fs fs2 : FS) (root collection : String) :
    (New fs root).1.Delete fs2 collection "" = .fatal ∧
    os.Stat resourceFS "deep/school/fish" = .ok .dir ∧
    schoolDriver.Delete resourceFS "fish" "" = .fatal ∧
    schoolDriver.ReadAll resourceFS "fish"
      = .ok [bytesOf "\x7b\n\t\"type\": \"red\"\n\x7d\n"] :=
  ⟨Delete_of_new_fatal fs fs2 root collection "", by decide, by decide, by decide⟩

/-- C10, the code at the failing input: the value cannot be encoded, and on the
driver `New` returns `Write("fish", "redfish", v)` does not return the error of
the encoder: the call is fatal, for every root and filesystem. -/
theorem write_unencodable_on_new_driver (fs fs2 : FS) (root : String) :
    chanCodec.MarshalIndent () = .error "json: unsupported type: chan int" ∧
    (New fs root).1.Write chanCodec fs2 "fish" "redfish" () = .fatal :=
  ⟨rfl, Write_of_new_fatal chanCodec fs fs2 root "fish" "redfish" () (by decide) (by decide)⟩

/-! ## ReadAll after writes -/

end Scribble
